import Mathlib

/-!
# Verification of the Circe front end (cce-ast parser, cce-lowlevel lexer)

A shallow embedding of the recursive-descent parser in
`src/core/cce-ast/src/parser.rs` and of the low-level lexer in
`src/core/cce-lowlevel/src/lexer.rs`, together with theorems about the
grammar's termination rules, error taxonomy and lookahead discipline.

The parser consumes high-level tokens through the lexer's `peek`/`next`
interface; on well-formed input that interface is exactly a list of tokens
(peek = head, next = pop), so the parsing functions are embedded as
functions `List Token → Except ParserError (α × List Token)` returning the
parsed value and the unconsumed remainder.  The low-level lexer consumes
Unicode scalar values from the character stream, embedded as `List Char`.
Rust's `char::is_alphanumeric` / `is_whitespace` are Unicode predicates;
the embedding uses Lean's ASCII `Char.isAlphanum` / `Char.isWhitespace`,
which agree with them on the ASCII fragment all claims live in.
-/

namespace Circe

/-- High-level token type (`cce-ast`'s `Token`). -/
inductive Token where
  | Identifier (s : String)
  | Keyword (s : String)
  | Literal (s : String)
  | Punctuation (c : Char)
  | Percent
  | Ampersand
  | Question
  | Dot
  | Newline
  | FinalSequence (s : String)
deriving DecidableEq, Repr

/-- `CommandComponent` from `parser.rs`. -/
inductive CommandComponent where
  | Literal (s : String)
  | Keyword (s : String)
  | Slot (s : String)
  | BackRef (s : String)
deriving DecidableEq, Repr

/-- `Command` from `parser.rs`: head components plus modifier sequences. -/
structure Command where
  components : List CommandComponent
  modifiers : List (List CommandComponent)
deriving DecidableEq, Repr

/-- `HowToStatement` from `parser.rs`. -/
structure HowToStatement where
  signature : List CommandComponent
  body : List Command
deriving DecidableEq, Repr

/-- `WhatIsCommand` from `parser.rs`: a body item of a whatis statement. -/
inductive WhatIsCommand where
  | Command (c : Command)
  | Final (s : String)
deriving DecidableEq, Repr

/-- `WhatIsStatement` from `parser.rs`. -/
structure WhatIsStatement where
  signature : List CommandComponent
  body : List WhatIsCommand
deriving DecidableEq, Repr

/-- `ParseNode` from `parser.rs`: the top-level union. -/
inductive ParseNode where
  | Command (c : Command)
  | HowToStatement (h : HowToStatement)
  | WhatIsStatement (w : WhatIsStatement)
deriving DecidableEq, Repr

/-- `ParserError` from `parser.rs`.  The `LexerError` variant wraps a lexer
failure; in the token-list embedding of well-formed token streams it cannot
arise, but it is kept so the error taxonomy matches the source. -/
inductive ParserError where
  | LexerError
  | SyntaxError (msg : String)
  | InternalError (msg : String)
deriving DecidableEq, Repr

/-- `Parser::parse_vec_command_component`: greedily turns tokens into
`CommandComponent`s.  `Identifier`/`Keyword` become `Keyword`, `Literal`
becomes `Literal`; `Percent`/`Ampersand` must be immediately followed by an
`Identifier` (consumed, becoming `Slot`/`BackRef`) or the parse fails with
`SyntaxError "Expected identifier"`; `FinalSequence` fails; `Punctuation`,
`Newline`, `Question`, `Dot` stop the loop without being consumed. -/
def parse_vec_command_component :
    List Token → Except ParserError (List CommandComponent × List Token)
  | [] => .ok ([], [])
  | Token.Identifier s :: ts =>
    match parse_vec_command_component ts with
    | .ok (cs, rest) => .ok (CommandComponent.Keyword s :: cs, rest)
    | .error e => .error e
  | Token.Keyword s :: ts =>
    match parse_vec_command_component ts with
    | .ok (cs, rest) => .ok (CommandComponent.Keyword s :: cs, rest)
    | .error e => .error e
  | Token.Literal s :: ts =>
    match parse_vec_command_component ts with
    | .ok (cs, rest) => .ok (CommandComponent.Literal s :: cs, rest)
    | .error e => .error e
  | Token.Percent :: ts =>
    match ts with
    | Token.Identifier s :: ts2 =>
      match parse_vec_command_component ts2 with
      | .ok (cs, rest) => .ok (CommandComponent.Slot s :: cs, rest)
      | .error e => .error e
    | _ => .error (.SyntaxError "Expected identifier")
  | Token.Ampersand :: ts =>
    match ts with
    | Token.Identifier s :: ts2 =>
      match parse_vec_command_component ts2 with
      | .ok (cs, rest) => .ok (CommandComponent.BackRef s :: cs, rest)
      | .error e => .error e
    | _ => .error (.SyntaxError "Expected identifier")
  | Token.Punctuation c :: ts => .ok ([], Token.Punctuation c :: ts)
  | Token.FinalSequence _ :: _ =>
    .error (.SyntaxError "Final sequences are not allowed here")
  | Token.Newline :: ts => .ok ([], Token.Newline :: ts)
  | Token.Question :: ts => .ok ([], Token.Question :: ts)
  | Token.Dot :: ts => .ok ([], Token.Dot :: ts)

/-- The remainder left by `parse_vec_command_component` is a suffix of its
input (the parser only pops tokens off the front). -/
theorem parse_vec_command_component_suffix :
    ∀ ts cs rest, parse_vec_command_component ts = .ok (cs, rest) →
      rest <:+ ts
  | [], cs, rest, h => by
    simp only [parse_vec_command_component] at h
    cases h
    exact List.suffix_rfl
  | Token.Identifier s :: ts, cs, rest, h => by
    simp only [parse_vec_command_component] at h
    split at h
    next cs2 rest2 heq =>
      cases h
      exact (parse_vec_command_component_suffix ts _ _ heq).trans
        (List.suffix_cons _ _)
    next => cases h
  | Token.Keyword s :: ts, cs, rest, h => by
    simp only [parse_vec_command_component] at h
    split at h
    next cs2 rest2 heq =>
      cases h
      exact (parse_vec_command_component_suffix ts _ _ heq).trans
        (List.suffix_cons _ _)
    next => cases h
  | Token.Literal s :: ts, cs, rest, h => by
    simp only [parse_vec_command_component] at h
    split at h
    next cs2 rest2 heq =>
      cases h
      exact (parse_vec_command_component_suffix ts _ _ heq).trans
        (List.suffix_cons _ _)
    next => cases h
  | Token.Percent :: ts, cs, rest, h => by
    match ts, h with
    | Token.Identifier s :: ts2, h =>
      simp only [parse_vec_command_component] at h
      split at h
      next cs2 rest2 heq =>
        cases h
        exact ((parse_vec_command_component_suffix ts2 _ _ heq).trans
          (List.suffix_cons _ _)).trans (List.suffix_cons _ _)
      next => cases h
  | Token.Ampersand :: ts, cs, rest, h => by
    match ts, h with
    | Token.Identifier s :: ts2, h =>
      simp only [parse_vec_command_component] at h
      split at h
      next cs2 rest2 heq =>
        cases h
        exact ((parse_vec_command_component_suffix ts2 _ _ heq).trans
          (List.suffix_cons _ _)).trans (List.suffix_cons _ _)
      next => cases h
  | Token.Punctuation c :: ts, cs, rest, h => by
    simp only [parse_vec_command_component] at h
    cases h
    exact List.suffix_rfl
  | Token.Newline :: ts, cs, rest, h => by
    simp only [parse_vec_command_component] at h
    cases h
    exact List.suffix_rfl
  | Token.Question :: ts, cs, rest, h => by
    simp only [parse_vec_command_component] at h
    cases h
    exact List.suffix_rfl
  | Token.Dot :: ts, cs, rest, h => by
    simp only [parse_vec_command_component] at h
    cases h
    exact List.suffix_rfl

theorem parse_vec_command_component_length {ts cs rest}
    (h : parse_vec_command_component ts = .ok (cs, rest)) :
    rest.length ≤ ts.length :=
  (parse_vec_command_component_suffix ts cs rest h).length_le

/-- The trailing loop of `Parser::parse_command`: after the head components,
`|` is consumed and another component sequence is appended as a modifier;
`-` stops the loop unconsumed; any other punctuation fails with
`SyntaxError "Expected '|'"`; `Dot` is consumed and ends the command;
`Newline` is consumed and the loop continues; any other token (or end of
input) ends the loop unconsumed. -/
def parse_command_loop (mods : List (List CommandComponent)) :
    List Token → Except ParserError (List (List CommandComponent) × List Token)
  | [] => .ok (mods, [])
  | Token.Punctuation c :: ts =>
    if c = '|' then
      match h : parse_vec_command_component ts with
      | .ok (m, rest) => parse_command_loop (mods ++ [m]) rest
      | .error e => .error e
    else if c = '-' then .ok (mods, Token.Punctuation c :: ts)
    else .error (.SyntaxError "Expected '|'")
  | Token.Dot :: ts => .ok (mods, ts)
  | Token.Newline :: ts => parse_command_loop mods ts
  | t :: ts => .ok (mods, t :: ts)
termination_by ts => ts.length
decreasing_by
  · have := parse_vec_command_component_length h
    simp only [List.length_cons]
    omega
  · simp only [List.length_cons]
    omega

theorem parse_command_loop_suffix :
    ∀ ts mods mods2 rest, parse_command_loop mods ts = .ok (mods2, rest) →
      rest <:+ ts
  | [], mods, mods2, rest, h => by
    simp only [parse_command_loop] at h
    cases h
    exact List.suffix_rfl
  | Token.Punctuation c :: ts, mods, mods2, rest, h => by
    simp only [parse_command_loop] at h
    by_cases hc : c = '|'
    · rw [if_pos hc] at h
      split at h
      next m rest2 heq =>
        have hlen := parse_vec_command_component_length heq
        exact ((parse_command_loop_suffix rest2 _ _ _ h).trans
          (parse_vec_command_component_suffix ts m rest2 heq)).trans
          (List.suffix_cons _ _)
      next => cases h
    · rw [if_neg hc] at h
      by_cases hd : c = '-'
      · rw [if_pos hd] at h
        cases h
        exact List.suffix_rfl
      · rw [if_neg hd] at h
        cases h
  | Token.Dot :: ts, mods, mods2, rest, h => by
    simp only [parse_command_loop] at h
    cases h
    exact List.suffix_cons _ _
  | Token.Newline :: ts, mods, mods2, rest, h => by
    simp only [parse_command_loop] at h
    exact (parse_command_loop_suffix ts _ _ _ h).trans (List.suffix_cons _ _)
  | Token.Identifier s :: ts, mods, mods2, rest, h => by
    simp only [parse_command_loop] at h
    cases h
    exact List.suffix_rfl
  | Token.Keyword s :: ts, mods, mods2, rest, h => by
    simp only [parse_command_loop] at h
    cases h
    exact List.suffix_rfl
  | Token.Literal s :: ts, mods, mods2, rest, h => by
    simp only [parse_command_loop] at h
    cases h
    exact List.suffix_rfl
  | Token.Percent :: ts, mods, mods2, rest, h => by
    simp only [parse_command_loop] at h
    cases h
    exact List.suffix_rfl
  | Token.Ampersand :: ts, mods, mods2, rest, h => by
    simp only [parse_command_loop] at h
    cases h
    exact List.suffix_rfl
  | Token.Question :: ts, mods, mods2, rest, h => by
    simp only [parse_command_loop] at h
    cases h
    exact List.suffix_rfl
  | Token.FinalSequence s :: ts, mods, mods2, rest, h => by
    simp only [parse_command_loop] at h
    cases h
    exact List.suffix_rfl
termination_by ts => ts.length
decreasing_by
  all_goals simp only [List.length_cons]; omega

/-- `Parser::parse_command`: a head component sequence followed by the
modifier/terminator loop. -/
def parse_command (ts : List Token) :
    Except ParserError (Command × List Token) :=
  match parse_vec_command_component ts with
  | .ok (components, ts1) =>
    match parse_command_loop [] ts1 with
    | .ok (modifiers, ts2) => .ok (⟨components, modifiers⟩, ts2)
    | .error e => .error e
  | .error e => .error e

theorem parse_command_suffix {ts cmd rest}
    (h : parse_command ts = .ok (cmd, rest)) : rest <:+ ts := by
  simp only [parse_command] at h
  split at h
  next cs ts1 heq1 =>
    split at h
    next mods ts2 heq2 =>
      cases h
      exact (parse_command_loop_suffix ts1 _ _ _ heq2).trans
        (parse_vec_command_component_suffix ts cs ts1 heq1)
    next => cases h
  next => cases h

/-- `Parser::parse_whatis_command`: a `FinalSequence` token is consumed and
wrapped as `Final`; anything else parses as a `Command`. -/
def parse_whatis_command (ts : List Token) :
    Except ParserError (WhatIsCommand × List Token) :=
  match ts with
  | Token.FinalSequence s :: ts2 => .ok (WhatIsCommand.Final s, ts2)
  | _ =>
    match parse_command ts with
    | .ok (c, rest) => .ok (WhatIsCommand.Command c, rest)
    | .error e => .error e

theorem parse_whatis_command_suffix {ts cmd rest}
    (h : parse_whatis_command ts = .ok (cmd, rest)) : rest <:+ ts := by
  simp only [parse_whatis_command] at h
  split at h
  next s ts2 =>
    cases h
    exact List.suffix_cons _ _
  next =>
    split at h
    next c rest2 heq =>
      cases h
      exact parse_command_suffix heq
    next => cases h

/-- The body loop of `Parser::parse_howto_statement`: parse a `Command`,
then `-` is consumed and the loop continues, `Dot` is consumed and ends the
statement, any other punctuation fails with
`SyntaxError "Expected '-' or '.'"`, and any other token (or end of input)
ends the body unconsumed. -/
def parse_howto_loop (body : List Command) (ts : List Token) :
    Except ParserError (List Command × List Token) :=
  match hc : parse_command ts with
  | .error e => .error e
  | .ok (cmd, ts1) =>
    match ts1, hc with
    | Token.Punctuation c :: ts2, hc =>
      if c = '-' then parse_howto_loop (body ++ [cmd]) ts2
      else .error (.SyntaxError "Expected '-' or '.'")
    | Token.Dot :: ts2, _ => .ok (body ++ [cmd], ts2)
    | [], _ => .ok (body ++ [cmd], [])
    | t :: ts2, _ => .ok (body ++ [cmd], t :: ts2)
termination_by ts.length
decreasing_by
  have := (parse_command_suffix hc).length_le
  simp only [List.length_cons] at this ⊢
  omega

/-- `Parser::parse_howto_statement` (after the leading `howto` keyword has
been consumed): a signature component sequence, then `Question`, `Newline`
and a leading `-` (each consumed, with the source's error messages
otherwise), then the body loop. -/
def parse_howto_statement (ts : List Token) :
    Except ParserError (HowToStatement × List Token) :=
  match parse_vec_command_component ts with
  | .error e => .error e
  | .ok (signature, ts1) =>
    match ts1 with
    | Token.Question :: ts2 =>
      match ts2 with
      | Token.Newline :: ts3 =>
        match ts3 with
        | Token.Punctuation c :: ts4 =>
          if c = '-' then
            match parse_howto_loop [] ts4 with
            | .ok (body, rest) => .ok (⟨signature, body⟩, rest)
            | .error e => .error e
          else .error (.SyntaxError "Expected '-'")
        | _ => .error (.SyntaxError "Expected '-'")
      | _ => .error (.SyntaxError "Expected newline")
    | _ => .error (.SyntaxError "Expected '?'")

/-- The body loop of `Parser::parse_whatis_statement`: parse a
`WhatIsCommand`, then `-` is consumed and the loop continues; a `Newline`
is consumed and the next token re-examined (`Newline` consumed and ends the
statement, `-` consumed and the loop continues, end of input ends the
statement, anything else fails with
`SyntaxError "Expected newline or '-'"`); any other punctuation fails with
`SyntaxError "Expected '-'"`; any other token (or end of input) ends the
body unconsumed. -/
def parse_whatis_loop (body : List WhatIsCommand) (ts : List Token) :
    Except ParserError (List WhatIsCommand × List Token) :=
  match hc : parse_whatis_command ts with
  | .error e => .error e
  | .ok (cmd, ts1) =>
    match ts1, hc with
    | Token.Punctuation c :: ts2, hc =>
      if c = '-' then parse_whatis_loop (body ++ [cmd]) ts2
      else .error (.SyntaxError "Expected '-'")
    | Token.Newline :: ts2, hc =>
      match ts2, hc with
      | Token.Newline :: ts3, _ => .ok (body ++ [cmd], ts3)
      | Token.Punctuation c :: ts3, hc =>
        if c = '-' then parse_whatis_loop (body ++ [cmd]) ts3
        else .error (.SyntaxError "Expected newline or '-'")
      | [], _ => .ok (body ++ [cmd], [])
      | _ :: _, _ => .error (.SyntaxError "Expected newline or '-'")
    | [], _ => .ok (body ++ [cmd], [])
    | t :: ts2, _ => .ok (body ++ [cmd], t :: ts2)
termination_by ts.length
decreasing_by
  · have := (parse_whatis_command_suffix hc).length_le
    simp only [List.length_cons] at this ⊢
    omega
  · have := (parse_whatis_command_suffix hc).length_le
    simp only [List.length_cons] at this ⊢
    omega

/-- `Parser::parse_whatis_statement` (after the leading `whatis` keyword
has been consumed): same signature/`?`/newline/leading-`-` opening as
`howto`, then the whatis body loop. -/
def parse_whatis_statement (ts : List Token) :
    Except ParserError (WhatIsStatement × List Token) :=
  match parse_vec_command_component ts with
  | .error e => .error e
  | .ok (signature, ts1) =>
    match ts1 with
    | Token.Question :: ts2 =>
      match ts2 with
      | Token.Newline :: ts3 =>
        match ts3 with
        | Token.Punctuation c :: ts4 =>
          if c = '-' then
            match parse_whatis_loop [] ts4 with
            | .ok (body, rest) => .ok (⟨signature, body⟩, rest)
            | .error e => .error e
          else .error (.SyntaxError "Expected '-'")
        | _ => .error (.SyntaxError "Expected '-'")
      | _ => .error (.SyntaxError "Expected newline")
    | _ => .error (.SyntaxError "Expected '?'")

/-- `Parser::next` on a fresh (non-peeked) parser, over the remaining token
stream: skip leading `Newline`s (returning `none` when input runs out);
`Keyword "howto"` / `Keyword "whatis"` are consumed and dispatch to the
statement parsers; any other `Keyword` fails with
`InternalError "Unexpected keyword"`; an `Identifier` starts a bare
`Command` (the token is not consumed by the dispatch); any other token
fails with `InternalError "Unexpected token"`. -/
def parser_next :
    List Token → Except ParserError (Option ParseNode × List Token)
  | [] => .ok (none, [])
  | Token.Newline :: ts => parser_next ts
  | Token.Keyword kw :: ts =>
    if kw = "howto" then
      match parse_howto_statement ts with
      | .ok (h, rest) => .ok (some (ParseNode.HowToStatement h), rest)
      | .error e => .error e
    else if kw = "whatis" then
      match parse_whatis_statement ts with
      | .ok (w, rest) => .ok (some (ParseNode.WhatIsStatement w), rest)
      | .error e => .error e
    else .error (.InternalError "Unexpected keyword")
  | Token.Identifier s :: ts =>
    match parse_command (Token.Identifier s :: ts) with
    | .ok (c, rest) => .ok (some (ParseNode.Command c), rest)
    | .error e => .error e
  | _ :: _ => .error (.InternalError "Unexpected token")

/-! ## Low-level lexer (`cce-lowlevel/src/lexer.rs`) -/

/-- Low-level token type (`cce-lowlevel`'s `Token`). -/
inductive LLToken where
  | Variable (s : String)
  | Identifier (s : String)
  | Literal (s : String)
  | Punctuation (c : Char)
  | HighLevelSequence (s : String)
deriving DecidableEq, Repr

/-- `LexerError` from `cce-lowlevel/src/lexer.rs`.  `InputStreamError`
wraps a decoding failure of the character stream; the stream is embedded
as a list of already-decoded scalar values, so it cannot arise, but the
variant is kept so the error taxonomy matches the source. -/
inductive LexerError where
  | InputStreamError
  | UnexpectedCharacter (c : Char)
  | UnexpectedEndOfInput
deriving DecidableEq, Repr

/-- The scanning loop shared by `Lexer::create_ident` (with
`is_alphanumeric`) and `Lexer::create_literal` (with `is_numeric`): take
the longest prefix satisfying `p`, return it with the remaining stream. -/
def span_chars (p : Char → Bool) : List Char → List Char × List Char
  | [] => ([], [])
  | c :: cs =>
    if p c then
      let (a, b) := span_chars p cs
      (c :: a, b)
    else ([], c :: cs)

/-- `Lexer::create_ident`: fails with `UnexpectedEndOfInput` when the
stream is already empty, otherwise returns the (possibly empty) longest
alphanumeric run.  (Rust's `char::is_alphanumeric` restricted to ASCII.) -/
def create_ident (cs : List Char) :
    Except LexerError (String × List Char) :=
  match cs with
  | [] => .error .UnexpectedEndOfInput
  | _ :: _ =>
    let (a, b) := span_chars Char.isAlphanum cs
    .ok (String.mk a, b)

/-- `Lexer::create_literal`: like `create_ident` with `is_numeric`. -/
def create_literal (cs : List Char) :
    Except LexerError (String × List Char) :=
  match cs with
  | [] => .error .UnexpectedEndOfInput
  | _ :: _ =>
    let (a, b) := span_chars Char.isDigit cs
    .ok (String.mk a, b)

/-- `Lexer::create_high_level_sequence`: accumulate characters verbatim up
to (not including) the first `>`, consume the `>`, and fail with
`UnexpectedEndOfInput` if the stream ends first. -/
def create_high_level_sequence :
    List Char → Except LexerError (List Char × List Char)
  | [] => .error .UnexpectedEndOfInput
  | c :: cs =>
    if c = '>' then .ok ([], cs)
    else
      match create_high_level_sequence cs with
      | .ok (a, rest) => .ok (c :: a, rest)
      | .error e => .error e

/-- `Lexer::next` on a fresh (non-peeked) low-level lexer, over the
remaining character stream: skip whitespace (returning `none` when the
stream runs out); `@` is consumed and an identifier run follows as
`Variable`; a digit starts a `Literal`; an uppercase letter starts an
`Identifier`; `=` is consumed yielding `Punctuation '='`; `<` is consumed
and opens the raw-capture window yielding `HighLevelSequence`; anything
else fails with `UnexpectedCharacter`. -/
def ll_next : List Char → Except LexerError (Option LLToken × List Char)
  | [] => .ok (none, [])
  | c :: cs =>
    if c.isWhitespace then ll_next cs
    else if c = '@' then
      match create_ident cs with
      | .ok (s, rest) => .ok (some (LLToken.Variable s), rest)
      | .error e => .error e
    else if '0' ≤ c ∧ c ≤ '9' then
      match create_literal (c :: cs) with
      | .ok (s, rest) => .ok (some (LLToken.Literal s), rest)
      | .error e => .error e
    else if 'A' ≤ c ∧ c ≤ 'Z' then
      match create_ident (c :: cs) with
      | .ok (s, rest) => .ok (some (LLToken.Identifier s), rest)
      | .error e => .error e
    else if c = '=' then .ok (some (LLToken.Punctuation '='), cs)
    else if c = '<' then
      match create_high_level_sequence cs with
      | .ok (a, rest) => .ok (some (LLToken.HighLevelSequence (String.mk a)), rest)
      | .error e => .error e
    else .error (.UnexpectedCharacter c)

/-! ## The one-slot lookahead discipline (`peek` / `next`)

Both the low-level lexer and the high-level parser keep a one-slot
`peeked` cache: `next` drains the cache if it is full and otherwise
produces a fresh value; `peek` fills the cache from `next` if it is empty
and returns a copy of it. -/

/-- Low-level lexer state: the remaining character stream and the one-slot
`peeked` cache (`Lexer { stream, peeked }` in `lexer.rs`). -/
structure LLLexerState where
  stream : List Char
  peeked : Option LLToken
deriving DecidableEq, Repr

/-- `Lexer::next` including the `peeked`-cache discharge. -/
def LLLexerState.next (l : LLLexerState) :
    Except LexerError (Option LLToken × LLLexerState) :=
  match l.peeked with
  | some p => .ok (some p, ⟨l.stream, none⟩)
  | none =>
    match ll_next l.stream with
    | .ok (r, rest) => .ok (r, ⟨rest, none⟩)
    | .error e => .error e

/-- `Lexer::peek`: fill the cache from `next` when empty, return it. -/
def LLLexerState.peek (l : LLLexerState) :
    Except LexerError (Option LLToken × LLLexerState) :=
  match l.peeked with
  | some p => .ok (some p, l)
  | none =>
    match ll_next l.stream with
    | .ok (r, rest) => .ok (r, ⟨rest, r⟩)
    | .error e => .error e

/-- High-level parser state: the remaining token stream and the one-slot
`peeked` cache (`Parser { lexer, peeked }` in `parser.rs`). -/
structure ParserState where
  toks : List Token
  peeked : Option ParseNode
deriving DecidableEq, Repr

/-- `Parser::next` including the `peeked`-cache discharge. -/
def ParserState.next (s : ParserState) :
    Except ParserError (Option ParseNode × ParserState) :=
  match s.peeked with
  | some p => .ok (some p, ⟨s.toks, none⟩)
  | none =>
    match parser_next s.toks with
    | .ok (r, rest) => .ok (r, ⟨rest, none⟩)
    | .error e => .error e

/-- `Parser::peek`: fill the cache from `next` when empty, return it. -/
def ParserState.peek (s : ParserState) :
    Except ParserError (Option ParseNode × ParserState) :=
  match s.peeked with
  | some p => .ok (some p, s)
  | none =>
    match parser_next s.toks with
    | .ok (r, rest) => .ok (r, ⟨rest, r⟩)
    | .error e => .error e

/-- The lexer returns `none` only with an exhausted stream (the fuelled
whitespace skip returns `none` exactly at the empty stream). -/
theorem ll_next_none :
    ∀ cs rest, ll_next cs = .ok (none, rest) → rest = [] := by
  intro cs
  induction cs with
  | nil =>
    intro rest h
    simp only [ll_next] at h
    cases h
    rfl
  | cons c cs ih =>
    intro rest h
    simp only [ll_next] at h
    by_cases hw : c.isWhitespace
    · rw [if_pos hw] at h
      exact ih rest h
    · rw [if_neg hw] at h
      split_ifs at h <;> (try split at h) <;> simp_all

/-- The parser returns `none` only with an exhausted token stream. -/
theorem parser_next_none :
    ∀ ts rest, parser_next ts = .ok (none, rest) → rest = [] := by
  intro ts
  induction ts with
  | nil =>
    intro rest h
    simp only [parser_next] at h
    cases h
    rfl
  | cons t ts ih =>
    intro rest h
    cases t <;> simp only [parser_next] at h <;>
      first
      | exact ih rest h
      | (split_ifs at h <;> (try split at h) <;> simp_all)
      | (split at h <;> simp_all)
      | simp_all

/-- Unfolding the howto body loop one step, given the result of the inner
`parse_command`. -/
theorem parse_howto_loop_eq {ts : List Token} {cmd : Command}
    {ts1 : List Token} (h : parse_command ts = .ok (cmd, ts1))
    (body : List Command) :
    parse_howto_loop body ts =
      match ts1 with
      | Token.Punctuation c :: ts2 =>
        if c = '-' then parse_howto_loop (body ++ [cmd]) ts2
        else .error (.SyntaxError "Expected '-' or '.'")
      | Token.Dot :: ts2 => .ok (body ++ [cmd], ts2)
      | [] => .ok (body ++ [cmd], [])
      | t :: ts2 => .ok (body ++ [cmd], t :: ts2) := by
  rw [parse_howto_loop.eq_def]
  split
  next e heq => rw [h] at heq; cases heq
  next cmd2 ts1' heq =>
    rw [h] at heq
    cases heq
    cases ts1 with
    | nil => rfl
    | cons t ts2 => cases t <;> rfl

/-- Unfolding the whatis body loop one step, given the result of the inner
`parse_whatis_command`. -/
theorem parse_whatis_loop_eq {ts : List Token} {cmd : WhatIsCommand}
    {ts1 : List Token} (h : parse_whatis_command ts = .ok (cmd, ts1))
    (body : List WhatIsCommand) :
    parse_whatis_loop body ts =
      match ts1 with
      | Token.Punctuation c :: ts2 =>
        if c = '-' then parse_whatis_loop (body ++ [cmd]) ts2
        else .error (.SyntaxError "Expected '-'")
      | Token.Newline :: ts2 =>
        match ts2 with
        | Token.Newline :: ts3 => .ok (body ++ [cmd], ts3)
        | Token.Punctuation c :: ts3 =>
          if c = '-' then parse_whatis_loop (body ++ [cmd]) ts3
          else .error (.SyntaxError "Expected newline or '-'")
        | [] => .ok (body ++ [cmd], [])
        | _ :: _ => .error (.SyntaxError "Expected newline or '-'")
      | [] => .ok (body ++ [cmd], [])
      | t :: ts2 => .ok (body ++ [cmd], t :: ts2) := by
  rw [parse_whatis_loop.eq_def]
  split
  next e heq => rw [h] at heq; cases heq
  next cmd2 ts1' heq =>
    rw [h] at heq
    cases heq
    cases ts1 with
    | nil => rfl
    | cons t ts2 => cases t <;> rfl

/-- When the inner `parse_command` fails, the howto body loop propagates
its error. -/
theorem parse_howto_loop_err {ts : List Token} {e : ParserError}
    (h : parse_command ts = .error e) (body : List Command) :
    parse_howto_loop body ts = .error e := by
  rw [parse_howto_loop.eq_def]
  split
  next e' heq => rw [h] at heq; cases heq; rfl
  next cmd2 ts1' heq => rw [h] at heq; cases heq

/-- When the inner `parse_whatis_command` fails, the whatis body loop
propagates its error. -/
theorem parse_whatis_loop_err {ts : List Token} {e : ParserError}
    (h : parse_whatis_command ts = .error e) (body : List WhatIsCommand) :
    parse_whatis_loop body ts = .error e := by
  rw [parse_whatis_loop.eq_def]
  split
  next e' heq => rw [h] at heq; cases heq; rfl
  next cmd2 ts1' heq => rw [h] at heq; cases heq

/-! ## The non-empty-name invariant of `Slot` / `BackRef` components -/

/-- Modelled from the spec: the high-level lexer (`cce-ast/src/lexer.rs`,
whose code is not among the repository files here — only its tests and its
callers are).  Per the spec, an `Identifier` token is produced from an
alphabetic run, so every `Identifier` the lexer hands to the parser carries
non-empty text.  This predicate captures that guarantee on a token
stream. -/
def lexer_idents_nonempty (ts : List Token) : Prop :=
  ∀ s, Token.Identifier s ∈ ts → s ≠ ""

theorem lexer_idents_nonempty_tail {t : Token} {ts : List Token}
    (H : lexer_idents_nonempty (t :: ts)) : lexer_idents_nonempty ts :=
  fun s hm => H s (List.mem_cons_of_mem _ hm)

theorem lexer_idents_nonempty_suffix {ts rest : List Token}
    (hs : rest <:+ ts) (H : lexer_idents_nonempty ts) :
    lexer_idents_nonempty rest :=
  fun s hm => H s (hs.subset hm)

/-- The name carried by a `Slot` or `BackRef` component is non-empty. -/
def comp_name_ok : CommandComponent → Prop
  | CommandComponent.Slot s => s ≠ ""
  | CommandComponent.BackRef s => s ≠ ""
  | CommandComponent.Literal _ => True
  | CommandComponent.Keyword _ => True

/-- All components of a command, head and modifiers, satisfy
`comp_name_ok`. -/
def command_ok (c : Command) : Prop :=
  (∀ comp ∈ c.components, comp_name_ok comp) ∧
  (∀ m ∈ c.modifiers, ∀ comp ∈ m, comp_name_ok comp)

def whatis_command_ok : WhatIsCommand → Prop
  | WhatIsCommand.Command c => command_ok c
  | WhatIsCommand.Final _ => True

/-- Every `Slot`/`BackRef` anywhere in a parse node has a non-empty
name. -/
def node_ok : ParseNode → Prop
  | ParseNode.Command c => command_ok c
  | ParseNode.HowToStatement h =>
    (∀ comp ∈ h.signature, comp_name_ok comp) ∧ ∀ c ∈ h.body, command_ok c
  | ParseNode.WhatIsStatement w =>
    (∀ comp ∈ w.signature, comp_name_ok comp) ∧
      ∀ wc ∈ w.body, whatis_command_ok wc

theorem parse_vec_command_component_ok :
    ∀ ts cs rest, lexer_idents_nonempty ts →
      parse_vec_command_component ts = .ok (cs, rest) →
      ∀ comp ∈ cs, comp_name_ok comp
  | [], cs, rest, H, h => by
    simp only [parse_vec_command_component] at h
    cases h
    intro comp hc
    cases hc
  | Token.Identifier s :: ts, cs, rest, H, h => by
    simp only [parse_vec_command_component] at h
    split at h
    next cs2 rest2 heq =>
      cases h
      intro comp hc
      rcases List.mem_cons.mp hc with rfl | hc2
      · trivial
      · exact parse_vec_command_component_ok ts _ _
          (lexer_idents_nonempty_tail H) heq comp hc2
    next => cases h
  | Token.Keyword s :: ts, cs, rest, H, h => by
    simp only [parse_vec_command_component] at h
    split at h
    next cs2 rest2 heq =>
      cases h
      intro comp hc
      rcases List.mem_cons.mp hc with rfl | hc2
      · trivial
      · exact parse_vec_command_component_ok ts _ _
          (lexer_idents_nonempty_tail H) heq comp hc2
    next => cases h
  | Token.Literal s :: ts, cs, rest, H, h => by
    simp only [parse_vec_command_component] at h
    split at h
    next cs2 rest2 heq =>
      cases h
      intro comp hc
      rcases List.mem_cons.mp hc with rfl | hc2
      · trivial
      · exact parse_vec_command_component_ok ts _ _
          (lexer_idents_nonempty_tail H) heq comp hc2
    next => cases h
  | Token.Percent :: ts, cs, rest, H, h => by
    match ts, H, h with
    | Token.Identifier s :: ts2, H, h =>
      simp only [parse_vec_command_component] at h
      split at h
      next cs2 rest2 heq =>
        cases h
        intro comp hc
        rcases List.mem_cons.mp hc with rfl | hc2
        · simpa [comp_name_ok] using H s (by simp)
        · exact parse_vec_command_component_ok ts2 _ _
            (lexer_idents_nonempty_tail (lexer_idents_nonempty_tail H))
            heq comp hc2
      next => cases h
  | Token.Ampersand :: ts, cs, rest, H, h => by
    match ts, H, h with
    | Token.Identifier s :: ts2, H, h =>
      simp only [parse_vec_command_component] at h
      split at h
      next cs2 rest2 heq =>
        cases h
        intro comp hc
        rcases List.mem_cons.mp hc with rfl | hc2
        · simpa [comp_name_ok] using H s (by simp)
        · exact parse_vec_command_component_ok ts2 _ _
            (lexer_idents_nonempty_tail (lexer_idents_nonempty_tail H))
            heq comp hc2
      next => cases h
  | Token.Punctuation c :: ts, cs, rest, H, h => by
    simp only [parse_vec_command_component] at h
    cases h
    intro comp hc
    cases hc
  | Token.Newline :: ts, cs, rest, H, h => by
    simp only [parse_vec_command_component] at h
    cases h
    intro comp hc
    cases hc
  | Token.Question :: ts, cs, rest, H, h => by
    simp only [parse_vec_command_component] at h
    cases h
    intro comp hc
    cases hc
  | Token.Dot :: ts, cs, rest, H, h => by
    simp only [parse_vec_command_component] at h
    cases h
    intro comp hc
    cases hc

theorem parse_command_loop_ok :
    ∀ ts mods mods2 rest, lexer_idents_nonempty ts →
      (∀ m ∈ mods, ∀ comp ∈ m, comp_name_ok comp) →
      parse_command_loop mods ts = .ok (mods2, rest) →
      ∀ m ∈ mods2, ∀ comp ∈ m, comp_name_ok comp
  | [], mods, mods2, rest, H, hm, h => by
    simp only [parse_command_loop] at h
    cases h
    exact hm
  | Token.Punctuation c :: ts, mods, mods2, rest, H, hm, h => by
    simp only [parse_command_loop] at h
    by_cases hc : c = '|'
    · rw [if_pos hc] at h
      split at h
      next m rest2 heq =>
        have hlen := parse_vec_command_component_length heq
        have H2 := lexer_idents_nonempty_suffix
          (parse_vec_command_component_suffix ts m rest2 heq)
          (lexer_idents_nonempty_tail H)
        have hm2 : ∀ m2 ∈ mods ++ [m], ∀ comp ∈ m2, comp_name_ok comp := by
          intro m2 hmem
          rcases List.mem_append.mp hmem with hmem | hmem
          · exact hm m2 hmem
          · rcases List.mem_singleton.mp hmem with rfl
            exact parse_vec_command_component_ok ts _ _
              (lexer_idents_nonempty_tail H) heq
        exact parse_command_loop_ok rest2 _ _ _ H2 hm2 h
      next => cases h
    · rw [if_neg hc] at h
      by_cases hd : c = '-'
      · rw [if_pos hd] at h
        cases h
        exact hm
      · rw [if_neg hd] at h
        cases h
  | Token.Dot :: ts, mods, mods2, rest, H, hm, h => by
    simp only [parse_command_loop] at h
    cases h
    exact hm
  | Token.Newline :: ts, mods, mods2, rest, H, hm, h => by
    simp only [parse_command_loop] at h
    exact parse_command_loop_ok ts _ _ _ (lexer_idents_nonempty_tail H) hm h
  | Token.Identifier s :: ts, mods, mods2, rest, H, hm, h => by
    simp only [parse_command_loop] at h
    cases h
    exact hm
  | Token.Keyword s :: ts, mods, mods2, rest, H, hm, h => by
    simp only [parse_command_loop] at h
    cases h
    exact hm
  | Token.Literal s :: ts, mods, mods2, rest, H, hm, h => by
    simp only [parse_command_loop] at h
    cases h
    exact hm
  | Token.Percent :: ts, mods, mods2, rest, H, hm, h => by
    simp only [parse_command_loop] at h
    cases h
    exact hm
  | Token.Ampersand :: ts, mods, mods2, rest, H, hm, h => by
    simp only [parse_command_loop] at h
    cases h
    exact hm
  | Token.Question :: ts, mods, mods2, rest, H, hm, h => by
    simp only [parse_command_loop] at h
    cases h
    exact hm
  | Token.FinalSequence s :: ts, mods, mods2, rest, H, hm, h => by
    simp only [parse_command_loop] at h
    cases h
    exact hm
termination_by ts => ts.length
decreasing_by
  all_goals simp only [List.length_cons]; omega

theorem parse_command_ok {ts : List Token} {cmd : Command}
    {rest : List Token} (H : lexer_idents_nonempty ts)
    (h : parse_command ts = .ok (cmd, rest)) : command_ok cmd := by
  simp only [parse_command] at h
  split at h
  next cs ts1 heq1 =>
    split at h
    next mods ts2 heq2 =>
      cases h
      exact ⟨parse_vec_command_component_ok ts _ _ H heq1,
        parse_command_loop_ok ts1 [] _ _
          (lexer_idents_nonempty_suffix
            (parse_vec_command_component_suffix ts _ _ heq1) H)
          (by intro m hm; cases hm) heq2⟩
    next => cases h
  next => cases h

theorem parse_whatis_command_ok {ts : List Token} {cmd : WhatIsCommand}
    {rest : List Token} (H : lexer_idents_nonempty ts)
    (h : parse_whatis_command ts = .ok (cmd, rest)) :
    whatis_command_ok cmd := by
  simp only [parse_whatis_command] at h
  split at h
  next s ts2 =>
    cases h
    trivial
  next =>
    split at h
    next c rest2 heq =>
      cases h
      exact parse_command_ok H heq
    next => cases h

theorem parse_howto_loop_ok :
    ∀ ts body body2 rest, lexer_idents_nonempty ts →
      (∀ c ∈ body, command_ok c) →
      parse_howto_loop body ts = .ok (body2, rest) →
      ∀ c ∈ body2, command_ok c
  | ts, body, body2, rest, H, hb, h => by
    cases hpc : parse_command ts with
    | error e =>
      rw [parse_howto_loop_err hpc] at h
      cases h
    | ok p =>
      obtain ⟨cmd, ts1⟩ := p
      have hsuf := (parse_command_suffix hpc).length_le
      have H1 := lexer_idents_nonempty_suffix (parse_command_suffix hpc) H
      have hb2 : ∀ c ∈ body ++ [cmd], command_ok c := by
        intro c hmem
        rcases List.mem_append.mp hmem with hmem | hmem
        · exact hb c hmem
        · rcases List.mem_singleton.mp hmem with rfl
          exact parse_command_ok H hpc
      rw [parse_howto_loop_eq hpc] at h
      match ts1, H1, hsuf, hb2, hpc, h with
      | Token.Punctuation c :: ts2, H1, hsuf, hb2, hpc, h =>
        have h2 : (if c = '-' then parse_howto_loop (body ++ [cmd]) ts2
            else Except.error (ParserError.SyntaxError "Expected '-' or '.'")) =
            Except.ok (body2, rest) := h
        by_cases hc : c = '-'
        · rw [if_pos hc] at h2
          exact parse_howto_loop_ok ts2 _ _ _
            (lexer_idents_nonempty_tail H1) hb2 h2
        · rw [if_neg hc] at h2
          cases h2
      | Token.Dot :: ts2, H1, hsuf, hb2, hpc, h =>
        have h2 : Except.ok (body ++ [cmd], ts2) =
            (Except.ok (body2, rest) : Except ParserError _) := h
        cases h2
        exact hb2
      | [], H1, hsuf, hb2, hpc, h =>
        have h2 : Except.ok (body ++ [cmd], ([] : List Token)) =
            (Except.ok (body2, rest) : Except ParserError _) := h
        cases h2
        exact hb2
      | Token.Identifier s :: ts2, H1, hsuf, hb2, hpc, h =>
        have h2 : Except.ok (body ++ [cmd], Token.Identifier s :: ts2) =
            (Except.ok (body2, rest) : Except ParserError _) := h
        cases h2
        exact hb2
      | Token.Keyword s :: ts2, H1, hsuf, hb2, hpc, h =>
        have h2 : Except.ok (body ++ [cmd], Token.Keyword s :: ts2) =
            (Except.ok (body2, rest) : Except ParserError _) := h
        cases h2
        exact hb2
      | Token.Literal s :: ts2, H1, hsuf, hb2, hpc, h =>
        have h2 : Except.ok (body ++ [cmd], Token.Literal s :: ts2) =
            (Except.ok (body2, rest) : Except ParserError _) := h
        cases h2
        exact hb2
      | Token.Percent :: ts2, H1, hsuf, hb2, hpc, h =>
        have h2 : Except.ok (body ++ [cmd], Token.Percent :: ts2) =
            (Except.ok (body2, rest) : Except ParserError _) := h
        cases h2
        exact hb2
      | Token.Ampersand :: ts2, H1, hsuf, hb2, hpc, h =>
        have h2 : Except.ok (body ++ [cmd], Token.Ampersand :: ts2) =
            (Except.ok (body2, rest) : Except ParserError _) := h
        cases h2
        exact hb2
      | Token.Question :: ts2, H1, hsuf, hb2, hpc, h =>
        have h2 : Except.ok (body ++ [cmd], Token.Question :: ts2) =
            (Except.ok (body2, rest) : Except ParserError _) := h
        cases h2
        exact hb2
      | Token.Newline :: ts2, H1, hsuf, hb2, hpc, h =>
        have h2 : Except.ok (body ++ [cmd], Token.Newline :: ts2) =
            (Except.ok (body2, rest) : Except ParserError _) := h
        cases h2
        exact hb2
      | Token.FinalSequence s :: ts2, H1, hsuf, hb2, hpc, h =>
        have h2 : Except.ok (body ++ [cmd], Token.FinalSequence s :: ts2) =
            (Except.ok (body2, rest) : Except ParserError _) := h
        cases h2
        exact hb2
termination_by ts => ts.length
decreasing_by
  simp only [List.length_cons] at hsuf ⊢
  omega

theorem parse_whatis_loop_ok :
    ∀ ts body body2 rest, lexer_idents_nonempty ts →
      (∀ wc ∈ body, whatis_command_ok wc) →
      parse_whatis_loop body ts = .ok (body2, rest) →
      ∀ wc ∈ body2, whatis_command_ok wc
  | ts, body, body2, rest, H, hb, h => by
    cases hpc : parse_whatis_command ts with
    | error e =>
      rw [parse_whatis_loop_err hpc] at h
      cases h
    | ok p =>
      obtain ⟨cmd, ts1⟩ := p
      have hsuf := (parse_whatis_command_suffix hpc).length_le
      have H1 := lexer_idents_nonempty_suffix (parse_whatis_command_suffix hpc) H
      have hb2 : ∀ wc ∈ body ++ [cmd], whatis_command_ok wc := by
        intro wc hmem
        rcases List.mem_append.mp hmem with hmem | hmem
        · exact hb wc hmem
        · rcases List.mem_singleton.mp hmem with rfl
          exact parse_whatis_command_ok H hpc
      rw [parse_whatis_loop_eq hpc] at h
      match ts1, H1, hsuf, hb2, hpc, h with
      | Token.Punctuation c :: ts2, H1, hsuf, hb2, hpc, h =>
        have h2 : (if c = '-' then parse_whatis_loop (body ++ [cmd]) ts2
            else Except.error (ParserError.SyntaxError "Expected '-'")) =
            Except.ok (body2, rest) := h
        by_cases hc : c = '-'
        · rw [if_pos hc] at h2
          exact parse_whatis_loop_ok ts2 _ _ _
            (lexer_idents_nonempty_tail H1) hb2 h2
        · rw [if_neg hc] at h2
          cases h2
      | Token.Newline :: Token.Newline :: ts3, H1, hsuf, hb2, hpc, h =>
        have h2 : Except.ok (body ++ [cmd], ts3) =
            (Except.ok (body2, rest) : Except ParserError _) := h
        cases h2
        exact hb2
      | Token.Newline :: Token.Punctuation c :: ts3, H1, hsuf, hb2, hpc, h =>
        have h2 : (if c = '-' then parse_whatis_loop (body ++ [cmd]) ts3
            else Except.error (ParserError.SyntaxError "Expected newline or '-'")) =
            Except.ok (body2, rest) := h
        by_cases hc : c = '-'
        · rw [if_pos hc] at h2
          exact parse_whatis_loop_ok ts3 _ _ _
            (lexer_idents_nonempty_tail (lexer_idents_nonempty_tail H1))
            hb2 h2
        · rw [if_neg hc] at h2
          cases h2
      | [Token.Newline], H1, hsuf, hb2, hpc, h =>
        have h2 : Except.ok (body ++ [cmd], ([] : List Token)) =
            (Except.ok (body2, rest) : Except ParserError _) := h
        cases h2
        exact hb2
      | Token.Newline :: Token.Identifier s :: ts3, H1, hsuf, hb2, hpc, h =>
        have h2 : (Except.error (ParserError.SyntaxError "Expected newline or '-'")) =
            (Except.ok (body2, rest) : Except ParserError _) := h
        cases h2
      | Token.Newline :: Token.Keyword s :: ts3, H1, hsuf, hb2, hpc, h =>
        have h2 : (Except.error (ParserError.SyntaxError "Expected newline or '-'")) =
            (Except.ok (body2, rest) : Except ParserError _) := h
        cases h2
      | Token.Newline :: Token.Literal s :: ts3, H1, hsuf, hb2, hpc, h =>
        have h2 : (Except.error (ParserError.SyntaxError "Expected newline or '-'")) =
            (Except.ok (body2, rest) : Except ParserError _) := h
        cases h2
      | Token.Newline :: Token.Percent :: ts3, H1, hsuf, hb2, hpc, h =>
        have h2 : (Except.error (ParserError.SyntaxError "Expected newline or '-'")) =
            (Except.ok (body2, rest) : Except ParserError _) := h
        cases h2
      | Token.Newline :: Token.Ampersand :: ts3, H1, hsuf, hb2, hpc, h =>
        have h2 : (Except.error (ParserError.SyntaxError "Expected newline or '-'")) =
            (Except.ok (body2, rest) : Except ParserError _) := h
        cases h2
      | Token.Newline :: Token.Question :: ts3, H1, hsuf, hb2, hpc, h =>
        have h2 : (Except.error (ParserError.SyntaxError "Expected newline or '-'")) =
            (Except.ok (body2, rest) : Except ParserError _) := h
        cases h2
      | Token.Newline :: Token.Dot :: ts3, H1, hsuf, hb2, hpc, h =>
        have h2 : (Except.error (ParserError.SyntaxError "Expected newline or '-'")) =
            (Except.ok (body2, rest) : Except ParserError _) := h
        cases h2
      | Token.Newline :: Token.FinalSequence s :: ts3, H1, hsuf, hb2, hpc, h =>
        have h2 : (Except.error (ParserError.SyntaxError "Expected newline or '-'")) =
            (Except.ok (body2, rest) : Except ParserError _) := h
        cases h2
      | Token.Dot :: ts2, H1, hsuf, hb2, hpc, h =>
        have h2 : Except.ok (body ++ [cmd], Token.Dot :: ts2) =
            (Except.ok (body2, rest) : Except ParserError _) := h
        cases h2
        exact hb2
      | [], H1, hsuf, hb2, hpc, h =>
        have h2 : Except.ok (body ++ [cmd], ([] : List Token)) =
            (Except.ok (body2, rest) : Except ParserError _) := h
        cases h2
        exact hb2
      | Token.Identifier s :: ts2, H1, hsuf, hb2, hpc, h =>
        have h2 : Except.ok (body ++ [cmd], Token.Identifier s :: ts2) =
            (Except.ok (body2, rest) : Except ParserError _) := h
        cases h2
        exact hb2
      | Token.Keyword s :: ts2, H1, hsuf, hb2, hpc, h =>
        have h2 : Except.ok (body ++ [cmd], Token.Keyword s :: ts2) =
            (Except.ok (body2, rest) : Except ParserError _) := h
        cases h2
        exact hb2
      | Token.Literal s :: ts2, H1, hsuf, hb2, hpc, h =>
        have h2 : Except.ok (body ++ [cmd], Token.Literal s :: ts2) =
            (Except.ok (body2, rest) : Except ParserError _) := h
        cases h2
        exact hb2
      | Token.Percent :: ts2, H1, hsuf, hb2, hpc, h =>
        have h2 : Except.ok (body ++ [cmd], Token.Percent :: ts2) =
            (Except.ok (body2, rest) : Except ParserError _) := h
        cases h2
        exact hb2
      | Token.Ampersand :: ts2, H1, hsuf, hb2, hpc, h =>
        have h2 : Except.ok (body ++ [cmd], Token.Ampersand :: ts2) =
            (Except.ok (body2, rest) : Except ParserError _) := h
        cases h2
        exact hb2
      | Token.Question :: ts2, H1, hsuf, hb2, hpc, h =>
        have h2 : Except.ok (body ++ [cmd], Token.Question :: ts2) =
            (Except.ok (body2, rest) : Except ParserError _) := h
        cases h2
        exact hb2
      | Token.FinalSequence s :: ts2, H1, hsuf, hb2, hpc, h =>
        have h2 : Except.ok (body ++ [cmd], Token.FinalSequence s :: ts2) =
            (Except.ok (body2, rest) : Except ParserError _) := h
        cases h2
        exact hb2
termination_by ts => ts.length
decreasing_by
  all_goals simp only [List.length_cons] at hsuf ⊢; omega

theorem parse_howto_statement_ok {ts : List Token} {st : HowToStatement}
    {rest : List Token} (H : lexer_idents_nonempty ts)
    (h : parse_howto_statement ts = .ok (st, rest)) :
    (∀ comp ∈ st.signature, comp_name_ok comp) ∧
      ∀ c ∈ st.body, command_ok c := by
  simp only [parse_howto_statement] at h
  split at h
  next => cases h
  next sig ts1 heq1 =>
    have hok := parse_vec_command_component_ok ts _ _ H heq1
    have H1 := lexer_idents_nonempty_suffix
      (parse_vec_command_component_suffix ts _ _ heq1) H
    split at h
    next ts2 =>
      split at h
      next ts3 =>
        split at h
        next c ts4 =>
          split_ifs at h with hc
          split at h
          next body2 rest2 heq2 =>
            cases h
            refine ⟨hok, parse_howto_loop_ok ts4 [] _ _ ?_
              (by intro c2 hm; cases hm) heq2⟩
            exact lexer_idents_nonempty_tail (lexer_idents_nonempty_tail
              (lexer_idents_nonempty_tail H1))
          next => cases h
        next => cases h
      next => cases h
    next => cases h

theorem parse_whatis_statement_ok {ts : List Token} {st : WhatIsStatement}
    {rest : List Token} (H : lexer_idents_nonempty ts)
    (h : parse_whatis_statement ts = .ok (st, rest)) :
    (∀ comp ∈ st.signature, comp_name_ok comp) ∧
      ∀ wc ∈ st.body, whatis_command_ok wc := by
  simp only [parse_whatis_statement] at h
  split at h
  next => cases h
  next sig ts1 heq1 =>
    have hok := parse_vec_command_component_ok ts _ _ H heq1
    have H1 := lexer_idents_nonempty_suffix
      (parse_vec_command_component_suffix ts _ _ heq1) H
    split at h
    next ts2 =>
      split at h
      next ts3 =>
        split at h
        next c ts4 =>
          split_ifs at h with hc
          split at h
          next body2 rest2 heq2 =>
            cases h
            refine ⟨hok, parse_whatis_loop_ok ts4 [] _ _ ?_
              (by intro wc hm; cases hm) heq2⟩
            exact lexer_idents_nonempty_tail (lexer_idents_nonempty_tail
              (lexer_idents_nonempty_tail H1))
          next => cases h
        next => cases h
      next => cases h
    next => cases h

theorem parser_next_ok :
    ∀ ts node rest, lexer_idents_nonempty ts →
      parser_next ts = .ok (some node, rest) → node_ok node := by
  intro ts
  induction ts with
  | nil =>
    intro node rest H h
    simp only [parser_next] at h
    cases h
  | cons t ts ih =>
    intro node rest H h
    cases t <;> simp only [parser_next] at h <;> try (cases h)
    case Identifier s =>
      split at h
      next c rest2 heq =>
        cases h
        exact parse_command_ok H heq
      next => cases h
    case Keyword kw =>
      split_ifs at h
      · split at h
        next st rest2 heq =>
          cases h
          exact parse_howto_statement_ok (lexer_idents_nonempty_tail H) heq
        next => cases h
      · split at h
        next st rest2 heq =>
          cases h
          exact parse_whatis_statement_ok (lexer_idents_nonempty_tail H) heq
        next => cases h
    case Newline =>
      exact ih node rest (lexer_idents_nonempty_tail H) h


/-! ## Claim theorems -/

/-- C5: component-sequence parsing maps each `Identifier` and each `Keyword`
token to `CommandComponent.Keyword` and each `Literal` token to
`CommandComponent.Literal`; a `FinalSequence` token in a component sequence
always fails with a `SyntaxError` (a quotation is legal only as a
`WhatIsCommand` body item, where it is consumed as `Final`); and a
`Punctuation`, `Newline`, `Question` or `Dot` token terminates the
component sequence without being consumed. -/
theorem component_token_mapping :
    (∀ s ts cs rest, parse_vec_command_component ts = .ok (cs, rest) →
      parse_vec_command_component (Token.Identifier s :: ts) =
        .ok (CommandComponent.Keyword s :: cs, rest)) ∧
    (∀ s ts cs rest, parse_vec_command_component ts = .ok (cs, rest) →
      parse_vec_command_component (Token.Keyword s :: ts) =
        .ok (CommandComponent.Keyword s :: cs, rest)) ∧
    (∀ s ts cs rest, parse_vec_command_component ts = .ok (cs, rest) →
      parse_vec_command_component (Token.Literal s :: ts) =
        .ok (CommandComponent.Literal s :: cs, rest)) ∧
    (∀ s ts, parse_vec_command_component (Token.FinalSequence s :: ts) =
      .error (ParserError.SyntaxError "Final sequences are not allowed here")) ∧
    (∀ s ts, parse_whatis_command (Token.FinalSequence s :: ts) =
      .ok (WhatIsCommand.Final s, ts)) ∧
    (∀ c ts, parse_vec_command_component (Token.Punctuation c :: ts) =
      .ok ([], Token.Punctuation c :: ts)) ∧
    (∀ ts, parse_vec_command_component (Token.Newline :: ts) =
      .ok ([], Token.Newline :: ts)) ∧
    (∀ ts, parse_vec_command_component (Token.Question :: ts) =
      .ok ([], Token.Question :: ts)) ∧
    (∀ ts, parse_vec_command_component (Token.Dot :: ts) =
      .ok ([], Token.Dot :: ts)) := by
  refine ⟨?_, ?_, ?_, ?_, ?_, ?_, ?_, ?_, ?_⟩ <;>
    intros <;>
    simp_all [parse_vec_command_component, parse_whatis_command]

/-- Witness for C5 at concrete inputs. -/
theorem component_token_mapping_witness :
    parse_vec_command_component [Token.Identifier "a", Token.Dot] =
      .ok ([CommandComponent.Keyword "a"], [Token.Dot]) :=
  component_token_mapping.1 "a" [Token.Dot] [] [Token.Dot] rfl

/-- C7: the top-level `Parser::next` skips leading `Newline`s and returns
`none` at exhausted input; `Keyword "howto"` / `Keyword "whatis"` are
consumed and dispatch to the statement parsers; any other `Keyword` fails
with `InternalError "Unexpected keyword"`; an `Identifier` starts a bare
`Command`; any other leading token fails with
`InternalError "Unexpected token"`; and `InternalError` is distinct from
`SyntaxError`. -/
theorem top_level_dispatch :
    (parser_next [] = .ok (none, [])) ∧
    (∀ ts, parser_next (Token.Newline :: ts) = parser_next ts) ∧
    (∀ ts st rest, parse_howto_statement ts = .ok (st, rest) →
      parser_next (Token.Keyword "howto" :: ts) =
        .ok (some (ParseNode.HowToStatement st), rest)) ∧
    (∀ ts st rest, parse_whatis_statement ts = .ok (st, rest) →
      parser_next (Token.Keyword "whatis" :: ts) =
        .ok (some (ParseNode.WhatIsStatement st), rest)) ∧
    (∀ kw ts, kw ≠ "howto" → kw ≠ "whatis" →
      parser_next (Token.Keyword kw :: ts) =
        .error (ParserError.InternalError "Unexpected keyword")) ∧
    (∀ s ts c rest, parse_command (Token.Identifier s :: ts) = .ok (c, rest) →
      parser_next (Token.Identifier s :: ts) =
        .ok (some (ParseNode.Command c), rest)) ∧
    (∀ t ts, t ≠ Token.Newline → (∀ s, t ≠ Token.Keyword s) →
      (∀ s, t ≠ Token.Identifier s) →
      parser_next (t :: ts) =
        .error (ParserError.InternalError "Unexpected token")) ∧
    (∀ m m2, ParserError.InternalError m ≠ ParserError.SyntaxError m2) := by
  refine ⟨rfl, fun ts => rfl, ?_, ?_, ?_, ?_, ?_, ?_⟩
  · intro ts st rest h
    simp [parser_next, h]
  · intro ts st rest h
    simp [parser_next, h]
  · intro kw ts h1 h2
    simp [parser_next, h1, h2]
  · intro s ts c rest h
    simp [parser_next, h]
  · intro t ts h1 h2 h3
    cases t <;>
      first
      | rfl
      | exact absurd rfl (h3 _)
      | exact absurd rfl (h2 _)
      | exact absurd rfl h1
  · intro m m2 hcontra
    cases hcontra

/-- Witness for C7 at concrete inputs. -/
theorem top_level_dispatch_witness :
    parser_next [Token.Keyword "print", Token.Identifier "x"] =
      .error (ParserError.InternalError "Unexpected keyword") ∧
    parser_next [Token.Question] =
      .error (ParserError.InternalError "Unexpected token") :=
  ⟨top_level_dispatch.2.2.2.2.1 "print" [Token.Identifier "x"]
      (by decide) (by decide),
    top_level_dispatch.2.2.2.2.2.2.1 Token.Question []
      (by simp) (by simp) (by simp)⟩

/-- C10: a component sequence may be empty — a leading terminator token
yields the empty sequence without error; a howto body line consisting of
`-` immediately followed by `.` parses into a body command with empty
components; and `|` immediately followed by a terminator appends an empty
modifier sequence. -/
theorem empty_component_sequences :
    (∀ t ts, ((∃ c, t = Token.Punctuation c) ∨ t = Token.Newline ∨
        t = Token.Question ∨ t = Token.Dot) →
      parse_vec_command_component (t :: ts) = .ok ([], t :: ts)) ∧
    (parse_howto_statement [Token.Identifier "a", Token.Question,
        Token.Newline, Token.Punctuation '-', Token.Dot] =
      .ok (⟨[CommandComponent.Keyword "a"], [⟨[], []⟩]⟩, [])) ∧
    (parse_command [Token.Identifier "b", Token.Punctuation '|', Token.Dot] =
      .ok (⟨[CommandComponent.Keyword "b"], [[]]⟩, [])) := by
  refine ⟨?_, ?_, ?_⟩
  · rintro t ts (⟨c, rfl⟩ | rfl | rfl | rfl) <;> rfl
  · have h1 : parse_command [Token.Dot] =
        .ok (⟨[], []⟩, ([] : List Token)) := by
      simp [parse_command, parse_vec_command_component, parse_command_loop]
    have h2 : parse_howto_loop [] [Token.Dot] = .ok ([⟨[], []⟩], []) := by
      rw [parse_howto_loop_eq h1]
      rfl
    simp [parse_howto_statement, parse_vec_command_component, h2]
  · simp [parse_command, parse_vec_command_component, parse_command_loop]

/-- Witness for C10 at a concrete terminator. -/
theorem empty_component_sequences_witness :
    parse_vec_command_component [Token.Newline] = .ok ([], [Token.Newline]) :=
  empty_component_sequences.1 Token.Newline [] (Or.inr (Or.inl rfl))


/-- C3: after each parsed howto body command, a `-` is consumed and the
body continues, a `Dot` is consumed and ends the statement, any other
punctuation fails with `SyntaxError "Expected '-' or '.'"`, and any other
token — including end of input — ends the body cleanly (a howto body
without a closing `.` succeeds at end of input). -/
theorem howto_body_termination (body : List Command) (ts ts1 : List Token)
    (cmd : Command) (h : parse_command ts = .ok (cmd, ts1)) :
    (∀ r, ts1 = Token.Punctuation '-' :: r →
      parse_howto_loop body ts = parse_howto_loop (body ++ [cmd]) r) ∧
    (∀ r, ts1 = Token.Dot :: r →
      parse_howto_loop body ts = .ok (body ++ [cmd], r)) ∧
    (∀ c r, ts1 = Token.Punctuation c :: r → c ≠ '-' →
      parse_howto_loop body ts =
        .error (ParserError.SyntaxError "Expected '-' or '.'")) ∧
    (ts1 = [] → parse_howto_loop body ts = .ok (body ++ [cmd], [])) ∧
    (∀ t r, ts1 = t :: r → (∀ c, t ≠ Token.Punctuation c) →
      t ≠ Token.Dot →
      parse_howto_loop body ts = .ok (body ++ [cmd], t :: r)) := by
  refine ⟨?_, ?_, ?_, ?_, ?_⟩
  · rintro r rfl
    rw [parse_howto_loop_eq h]
    exact rfl
  · rintro r rfl
    rw [parse_howto_loop_eq h]
  · rintro c r rfl hc
    rw [parse_howto_loop_eq h]
    show (if c = '-' then parse_howto_loop (body ++ [cmd]) r
        else Except.error (ParserError.SyntaxError "Expected '-' or '.'")) = _
    rw [if_neg hc]
  · rintro rfl
    rw [parse_howto_loop_eq h]
  · rintro t r rfl hp hd
    cases t <;>
      first
      | exact absurd rfl (hp _)
      | exact absurd rfl hd
      | (rw [parse_howto_loop_eq h]; try exact rfl)

/-- Witness for C3: a dot-terminated command followed by `;` hits the
loop's other-punctuation error; a command at end of input ends cleanly. -/
theorem howto_body_termination_witness :
    parse_howto_loop [] [Token.Identifier "b", Token.Dot,
        Token.Punctuation ';'] =
      .error (ParserError.SyntaxError "Expected '-' or '.'") ∧
    parse_howto_loop [] [Token.Identifier "b"] =
      .ok ([⟨[CommandComponent.Keyword "b"], []⟩], []) :=
  ⟨(howto_body_termination [] [Token.Identifier "b", Token.Dot,
        Token.Punctuation ';'] [Token.Punctuation ';']
      ⟨[CommandComponent.Keyword "b"], []⟩
      (by simp [parse_command, parse_vec_command_component,
        parse_command_loop])).2.2.1 ';' [] rfl (by decide),
   (howto_body_termination [] [Token.Identifier "b"] []
      ⟨[CommandComponent.Keyword "b"], []⟩
      (by simp [parse_command, parse_vec_command_component,
        parse_command_loop])).2.2.2.1 rfl⟩

/-- C1 counterexample: a whatis body command followed by a single newline
and then an identifier is NOT a syntax error — `parse_command` itself
consumes the trailing newline, the identifier ends the body cleanly, and
the whole statement parses with the identifier left unconsumed. -/
theorem whatis_newline_identifier_counterexample :
    parser_next [Token.Keyword "whatis", Token.Identifier "a", Token.Question,
      Token.Newline, Token.Punctuation '-', Token.Identifier "b",
      Token.Newline, Token.Identifier "c"] =
    .ok (some (ParseNode.WhatIsStatement ⟨[CommandComponent.Keyword "a"],
      [WhatIsCommand.Command ⟨[CommandComponent.Keyword "b"], []⟩]⟩),
      [Token.Identifier "c"]) := by
  have h1 : parse_whatis_command [Token.Identifier "b", Token.Newline,
      Token.Identifier "c"] =
      .ok (WhatIsCommand.Command ⟨[CommandComponent.Keyword "b"], []⟩,
        [Token.Identifier "c"]) := by
    simp [parse_whatis_command, parse_command, parse_vec_command_component,
      parse_command_loop]
  have h2 : parse_whatis_loop [] [Token.Identifier "b", Token.Newline,
      Token.Identifier "c"] =
      .ok ([WhatIsCommand.Command ⟨[CommandComponent.Keyword "b"], []⟩],
        [Token.Identifier "c"]) := by
    rw [parse_whatis_loop_eq h1]
    exact rfl
  simp [parser_next, parse_whatis_statement, parse_vec_command_component, h2]

/-- C1 (amended): when after a parsed whatis body item the unconsumed
stream still begins with a `Newline` — which can only happen when the item
was a `Final` quotation or a command whose parse ended by consuming a
`Dot`, since `parse_command` consumes trailing newlines itself — the loop
consumes that newline and re-examines what follows: a second consecutive
`Newline` ends the statement, a `Punctuation '-'` continues the body list,
end of input ends the statement, and any other token fails with
`SyntaxError "Expected newline or '-'"`.  A plain whatis body command
followed by a single newline and an identifier instead ends the statement
cleanly (see the counterexample). -/
theorem whatis_newline_reexamination (body : List WhatIsCommand)
    (ts ts1 : List Token) (cmd : WhatIsCommand)
    (h : parse_whatis_command ts = .ok (cmd, Token.Newline :: ts1)) :
    (∀ r, ts1 = Token.Newline :: r →
      parse_whatis_loop body ts = .ok (body ++ [cmd], r)) ∧
    (∀ r, ts1 = Token.Punctuation '-' :: r →
      parse_whatis_loop body ts = parse_whatis_loop (body ++ [cmd]) r) ∧
    (ts1 = [] → parse_whatis_loop body ts = .ok (body ++ [cmd], [])) ∧
    (∀ c r, ts1 = Token.Punctuation c :: r → c ≠ '-' →
      parse_whatis_loop body ts =
        .error (ParserError.SyntaxError "Expected newline or '-'")) ∧
    (∀ t r, ts1 = t :: r → t ≠ Token.Newline →
      (∀ c, t ≠ Token.Punctuation c) →
      parse_whatis_loop body ts =
        .error (ParserError.SyntaxError "Expected newline or '-'")) := by
  refine ⟨?_, ?_, ?_, ?_, ?_⟩
  · rintro r rfl
    rw [parse_whatis_loop_eq h]
  · rintro r rfl
    rw [parse_whatis_loop_eq h]
    exact rfl
  · rintro rfl
    rw [parse_whatis_loop_eq h]
  · rintro c r rfl hc
    rw [parse_whatis_loop_eq h]
    show (if c = '-' then parse_whatis_loop (body ++ [cmd]) r
        else Except.error (ParserError.SyntaxError "Expected newline or '-'")) = _
    rw [if_neg hc]
  · rintro t r rfl hn hp
    cases t <;>
      first
      | exact absurd rfl hn
      | exact absurd rfl (hp _)
      | (rw [parse_whatis_loop_eq h]; try exact rfl)

/-- Witness for C1's amended theorem: a `Final` body item followed by a
single newline and an identifier fails with the re-examination error. -/
theorem whatis_newline_reexamination_witness :
    parse_whatis_loop [] [Token.FinalSequence "x", Token.Newline,
        Token.Identifier "c"] =
      .error (ParserError.SyntaxError "Expected newline or '-'") :=
  (whatis_newline_reexamination [] [Token.FinalSequence "x", Token.Newline,
      Token.Identifier "c"] [Token.Identifier "c"]
    (WhatIsCommand.Final "x") rfl).2.2.2.2 (Token.Identifier "c") [] rfl
    (by simp) (by simp)

/-- C2 counterexample: after a whatis body command, a blank line does not
always complete the statement with what follows excluded from the body:
`parse_command` consumes the two newlines itself and a following `-`
continues the body list, so the command after the blank line becomes part
of the statement's body. -/
theorem whatis_blank_line_counterexample :
    parser_next [Token.Keyword "whatis", Token.Identifier "a", Token.Question,
      Token.Newline, Token.Punctuation '-', Token.Identifier "b",
      Token.Newline, Token.Newline, Token.Punctuation '-',
      Token.Identifier "c"] =
    .ok (some (ParseNode.WhatIsStatement ⟨[CommandComponent.Keyword "a"],
      [WhatIsCommand.Command ⟨[CommandComponent.Keyword "b"], []⟩,
       WhatIsCommand.Command ⟨[CommandComponent.Keyword "c"], []⟩]⟩), []) := by
  have h1 : parse_whatis_command [Token.Identifier "b", Token.Newline,
      Token.Newline, Token.Punctuation '-', Token.Identifier "c"] =
      .ok (WhatIsCommand.Command ⟨[CommandComponent.Keyword "b"], []⟩,
        [Token.Punctuation '-', Token.Identifier "c"]) := by
    simp [parse_whatis_command, parse_command, parse_vec_command_component,
      parse_command_loop]
  have h2 : parse_whatis_command [Token.Identifier "c"] =
      .ok (WhatIsCommand.Command ⟨[CommandComponent.Keyword "c"], []⟩,
        ([] : List Token)) := by
    simp [parse_whatis_command, parse_command, parse_vec_command_component,
      parse_command_loop]
  have h3 : parse_whatis_loop [] [Token.Identifier "b", Token.Newline,
      Token.Newline, Token.Punctuation '-', Token.Identifier "c"] =
      .ok ([WhatIsCommand.Command ⟨[CommandComponent.Keyword "b"], []⟩,
        WhatIsCommand.Command ⟨[CommandComponent.Keyword "c"], []⟩], []) := by
    rw [parse_whatis_loop_eq h1]
    show parse_whatis_loop
      [WhatIsCommand.Command ⟨[CommandComponent.Keyword "b"], []⟩]
      [Token.Identifier "c"] = _
    rw [parse_whatis_loop_eq h2]
    exact rfl
  simp [parser_next, parse_whatis_statement, parse_vec_command_component, h3]

/-- C2 (amended): a whatis statement never requires a `.` terminator: at
end of input after a body item the statement succeeds with the body
collected so far; when after a body item the unconsumed stream begins with
a blank line (two consecutive `Newline`s — possible after a `Final` item
or a dot-terminated command) the statement is complete and what follows
the blank line is untouched; and any leading token that is neither
punctuation nor newline ends the body cleanly without being consumed.  A
blank line after a plain command body item is instead consumed by
`parse_command` itself, and a `-` after it continues the body (see the
counterexample). -/
theorem whatis_termination (body : List WhatIsCommand)
    (ts ts1 : List Token) (cmd : WhatIsCommand)
    (h : parse_whatis_command ts = .ok (cmd, ts1)) :
    (ts1 = [] → parse_whatis_loop body ts = .ok (body ++ [cmd], [])) ∧
    (∀ r, ts1 = Token.Newline :: Token.Newline :: r →
      parse_whatis_loop body ts = .ok (body ++ [cmd], r)) ∧
    (∀ t r, ts1 = t :: r → (∀ c, t ≠ Token.Punctuation c) →
      t ≠ Token.Newline →
      parse_whatis_loop body ts = .ok (body ++ [cmd], t :: r)) := by
  refine ⟨?_, ?_, ?_⟩
  · rintro rfl
    rw [parse_whatis_loop_eq h]
  · rintro r rfl
    rw [parse_whatis_loop_eq h]
  · rintro t r rfl hp hn
    cases t <;>
      first
      | exact absurd rfl (hp _)
      | exact absurd rfl hn
      | (rw [parse_whatis_loop_eq h]; try exact rfl)

/-- Witness for C2's amended theorem: a `Final` body item at end of input,
and a `Final` body item followed by a blank line and more input. -/
theorem whatis_termination_witness :
    parse_whatis_loop [] [Token.FinalSequence "x"] =
      .ok ([WhatIsCommand.Final "x"], []) ∧
    parse_whatis_loop [] [Token.FinalSequence "x", Token.Newline,
        Token.Newline, Token.Identifier "z"] =
      .ok ([WhatIsCommand.Final "x"], [Token.Identifier "z"]) :=
  ⟨(whatis_termination [] [Token.FinalSequence "x"] []
      (WhatIsCommand.Final "x") rfl).1 rfl,
   (whatis_termination [] [Token.FinalSequence "x", Token.Newline,
        Token.Newline, Token.Identifier "z"]
      [Token.Newline, Token.Newline, Token.Identifier "z"]
      (WhatIsCommand.Final "x") rfl).2.1 [Token.Identifier "z"] rfl⟩


/-- C4: in component-sequence parsing every `Percent`/`Ampersand` token
must be immediately followed by an `Identifier` token, which is consumed
producing `Slot`/`BackRef`; otherwise parsing fails with
`SyntaxError "Expected identifier"`.  Consequently — under the lexer
guarantee that `Identifier` tokens carry non-empty text
(`lexer_idents_nonempty`, modelled from the spec because the high-level
lexer's code is not among the repository files) — every `Slot` and
`BackRef` component in any `ParseNode` the parser returns carries a
non-empty name. -/
theorem slot_backref_nonempty :
    (∀ s ts2 cs rest, parse_vec_command_component ts2 = .ok (cs, rest) →
      parse_vec_command_component
          (Token.Percent :: Token.Identifier s :: ts2) =
        .ok (CommandComponent.Slot s :: cs, rest)) ∧
    (∀ s ts2 cs rest, parse_vec_command_component ts2 = .ok (cs, rest) →
      parse_vec_command_component
          (Token.Ampersand :: Token.Identifier s :: ts2) =
        .ok (CommandComponent.BackRef s :: cs, rest)) ∧
    (∀ ts, (∀ s ts2, ts ≠ Token.Identifier s :: ts2) →
      parse_vec_command_component (Token.Percent :: ts) =
        .error (ParserError.SyntaxError "Expected identifier") ∧
      parse_vec_command_component (Token.Ampersand :: ts) =
        .error (ParserError.SyntaxError "Expected identifier")) ∧
    (∀ ts node rest, lexer_idents_nonempty ts →
      parser_next ts = .ok (some node, rest) → node_ok node) := by
  refine ⟨?_, ?_, ?_, parser_next_ok⟩
  · intro s ts2 cs rest h
    simp [parse_vec_command_component, h]
  · intro s ts2 cs rest h
    simp [parse_vec_command_component, h]
  · intro ts hne
    constructor <;>
      (cases ts with
      | nil => rfl
      | cons t ts2 =>
        cases t <;> first
          | exact absurd rfl (hne _ _)
          | rfl)

/-- Witness for C4 at concrete inputs: a consumed slot, a failing bare
sigil, and a non-empty-named node from a concrete parse. -/
theorem slot_backref_nonempty_witness :
    parse_vec_command_component
        [Token.Percent, Token.Identifier "x", Token.Dot] =
      .ok ([CommandComponent.Slot "x"], [Token.Dot]) ∧
    parse_vec_command_component [Token.Percent, Token.Dot] =
      .error (ParserError.SyntaxError "Expected identifier") ∧
    node_ok (ParseNode.Command
      ⟨[CommandComponent.Keyword "p", CommandComponent.Slot "x"], []⟩) :=
  ⟨slot_backref_nonempty.1 "x" [Token.Dot] [] [Token.Dot] rfl,
   (slot_backref_nonempty.2.2.1 [Token.Dot]
     (by intro s ts2 hcon; cases hcon)).1,
   slot_backref_nonempty.2.2.2
     [Token.Identifier "p", Token.Percent, Token.Identifier "x"]
     (ParseNode.Command
       ⟨[CommandComponent.Keyword "p", CommandComponent.Slot "x"], []⟩) []
     (by intro s hm; simp at hm; rcases hm with rfl | rfl <;> decide)
     (by simp [parser_next, parse_command, parse_vec_command_component,
       parse_command_loop])⟩

/-- C6: for every state of the high-level parser and of the low-level
lexer, a second `peek` with no intervening `next` returns the identical
value and leaves the state unchanged, and a `next` immediately after a
successful `peek` returns exactly the peeked value. -/
theorem peek_idempotent_next_consumes :
    (∀ (p : ParserState) v p2, ParserState.peek p = .ok (v, p2) →
      ParserState.peek p2 = .ok (v, p2) ∧
      ∃ p3, ParserState.next p2 = .ok (v, p3)) ∧
    (∀ (l : LLLexerState) v l2, LLLexerState.peek l = .ok (v, l2) →
      LLLexerState.peek l2 = .ok (v, l2) ∧
      ∃ l3, LLLexerState.next l2 = .ok (v, l3)) := by
  constructor
  · intro p v p2 h
    obtain ⟨toks, peeked⟩ := p
    cases peeked with
    | some q =>
      simp only [ParserState.peek] at h
      cases h
      exact ⟨rfl, ⟨⟨toks, none⟩, rfl⟩⟩
    | none =>
      simp only [ParserState.peek] at h
      split at h
      next r rest heq =>
        cases h
        cases v with
        | some node => exact ⟨rfl, ⟨⟨rest, none⟩, rfl⟩⟩
        | none =>
          have hrest : rest = [] := parser_next_none toks rest heq
          subst hrest
          exact ⟨rfl, ⟨⟨[], none⟩, rfl⟩⟩
      next => cases h
  · intro l v l2 h
    obtain ⟨stream, peeked⟩ := l
    cases peeked with
    | some q =>
      simp only [LLLexerState.peek] at h
      cases h
      exact ⟨rfl, ⟨⟨stream, none⟩, rfl⟩⟩
    | none =>
      simp only [LLLexerState.peek] at h
      split at h
      next r rest heq =>
        cases h
        cases v with
        | some tok => exact ⟨rfl, ⟨⟨rest, none⟩, rfl⟩⟩
        | none =>
          have hrest : rest = [] := ll_next_none stream rest heq
          subst hrest
          exact ⟨rfl, ⟨⟨[], none⟩, rfl⟩⟩
      next => cases h

/-- Witness for C6 at concrete states with a filled lookahead cache. -/
theorem peek_idempotent_next_consumes_witness :
    ParserState.peek ⟨[], some (ParseNode.Command ⟨[], []⟩)⟩ =
      .ok (some (ParseNode.Command ⟨[], []⟩),
        ⟨[], some (ParseNode.Command ⟨[], []⟩)⟩) ∧
    LLLexerState.peek ⟨[], some (LLToken.Punctuation '=')⟩ =
      .ok (some (LLToken.Punctuation '='),
        ⟨[], some (LLToken.Punctuation '=')⟩) :=
  ⟨(peek_idempotent_next_consumes.1 ⟨[], some (ParseNode.Command ⟨[], []⟩)⟩
      (some (ParseNode.Command ⟨[], []⟩))
      ⟨[], some (ParseNode.Command ⟨[], []⟩)⟩ rfl).1,
   (peek_idempotent_next_consumes.2 ⟨[], some (LLToken.Punctuation '=')⟩
      (some (LLToken.Punctuation '='))
      ⟨[], some (LLToken.Punctuation '=')⟩ rfl).1⟩

/-- The raw-capture scan accumulates exactly the characters before the
first `>` and leaves what follows the consumed `>`. -/
theorem create_high_level_sequence_spec :
    ∀ pre post, '>' ∉ pre →
      create_high_level_sequence (pre ++ '>' :: post) = .ok (pre, post) := by
  intro pre
  induction pre with
  | nil =>
    intro post h
    simp [create_high_level_sequence]
  | cons c cs ih =>
    intro post h
    have hc : c ≠ '>' := fun hcc => h (by simp [hcc])
    simp [create_high_level_sequence, hc,
      ih post (fun hm => h (List.mem_cons_of_mem _ hm))]

/-- The raw-capture scan fails with `UnexpectedEndOfInput` when no `>`
remains. -/
theorem create_high_level_sequence_eoi :
    ∀ pre, '>' ∉ pre →
      create_high_level_sequence pre = .error .UnexpectedEndOfInput := by
  intro pre
  induction pre with
  | nil =>
    intro h
    rfl
  | cons c cs ih =>
    intro h
    have hc : c ≠ '>' := fun hcc => h (by simp [hcc])
    simp [create_high_level_sequence, hc,
      ih (fun hm => h (List.mem_cons_of_mem _ hm))]

/-- C8: in the low-level lexer `<` opens a raw-capture window: all
characters up to but not including the first `>` are accumulated verbatim,
the `>` is consumed, and `next` returns `HighLevelSequence` holding
exactly the characters between `<` and `>`; if the stream ends before a
`>`, `next` fails with `UnexpectedEndOfInput`. -/
theorem high_level_sequence_capture :
    (∀ pre post, '>' ∉ pre →
      ll_next ('<' :: (pre ++ '>' :: post)) =
        .ok (some (LLToken.HighLevelSequence (String.mk pre)), post)) ∧
    (∀ pre, '>' ∉ pre →
      ll_next ('<' :: pre) = .error LexerError.UnexpectedEndOfInput) := by
  constructor
  · intro pre post h
    show (match create_high_level_sequence (pre ++ '>' :: post) with
      | Except.ok (a, rest) =>
        Except.ok (some (LLToken.HighLevelSequence (String.mk a)), rest)
      | Except.error e =>
        (Except.error e : Except LexerError (Option LLToken × List Char))) =
      Except.ok (some (LLToken.HighLevelSequence (String.mk pre)), post)
    rw [create_high_level_sequence_spec pre post h]
  · intro pre h
    show (match create_high_level_sequence pre with
      | Except.ok (a, rest) =>
        Except.ok (some (LLToken.HighLevelSequence (String.mk a)), rest)
      | Except.error e =>
        (Except.error e : Except LexerError (Option LLToken × List Char))) =
      Except.error LexerError.UnexpectedEndOfInput
    rw [create_high_level_sequence_eoi pre h]

/-- Witness for C8: `<ab>c` captures `ab` leaving `c`; `<ab` fails. -/
theorem high_level_sequence_capture_witness :
    ll_next ['<', 'a', 'b', '>', 'c'] =
      .ok (some (LLToken.HighLevelSequence (String.mk ['a', 'b'])), ['c']) ∧
    ll_next ['<', 'a', 'b'] = .error LexerError.UnexpectedEndOfInput :=
  ⟨high_level_sequence_capture.1 ['a', 'b'] ['c'] (by decide),
   high_level_sequence_capture.2 ['a', 'b'] (by decide)⟩

/-- C9: in the low-level lexer, `@` followed by a character that is not
alphanumeric succeeds with `Variable ""` (the non-alphanumeric character
is not consumed), while `@` as the last character of the input fails with
`UnexpectedEndOfInput`. -/
theorem variable_sigil_edge_cases :
    (∀ c cs, ¬ c.isAlphanum →
      ll_next ('@' :: c :: cs) = .ok (some (LLToken.Variable ""), c :: cs)) ∧
    (ll_next ['@'] = .error LexerError.UnexpectedEndOfInput) := by
  constructor
  · intro c cs h
    show (match create_ident (c :: cs) with
      | Except.ok (s2, rest) =>
        Except.ok (some (LLToken.Variable s2), rest)
      | Except.error e =>
        (Except.error e : Except LexerError (Option LLToken × List Char))) =
      Except.ok (some (LLToken.Variable ""), c :: cs)
    simp [create_ident, span_chars, h]
  · rfl

/-- Witness for C9: `@` before `!` yields an empty-named variable. -/
theorem variable_sigil_edge_cases_witness :
    ll_next ['@', '!'] = .ok (some (LLToken.Variable ""), ['!']) :=
  variable_sigil_edge_cases.1 '!' [] (by decide)

end Circe
